import Mathlib

set_option maxRecDepth 8000

/-!
Verification development for the contract-validation / code-generation
pipeline (stage A contract validator and stage B module generator).

The concrete Python sources available are the stage A test-suite, the
stage B gate test-suite (whose helper functions `_discover_contract_abbrs`,
`_autogen_files_tree_hash` and `_manual_files_hash_if_exist` are embedded
below), the stage B generator package declaration, and the one-click
driver `run_stageA.py`.  The generator proper, the lint validator and the
batch validator are described by the specification only; the definitions
embedding them carry a doc comment starting with `Modelled from the spec:`
and follow the specification text.
-/

/-! ## ASCII string helpers (embedding Python `.strip()`, `.upper()`, glob suffix match) -/

/-- Whitespace characters recognised by the embedded `strip`. -/
def wsChars : List Char := [' ', '\t', '\n', '\r']

/-- Whitespace test for the embedded `strip`. -/
def isWS (c : Char) : Bool := wsChars.contains c

/-- Embedding of Python `str.strip()`: drop whitespace on both ends. -/
def trimStr (s : String) : String :=
  String.mk (((s.data.dropWhile isWS).reverse.dropWhile isWS).reverse)

/-- Embedding of Python `str.upper()` (ASCII). -/
def upperStr (s : String) : String := String.mk (s.data.map Char.toUpper)

/-- Suffix test: `endsWithStr s suf` holds when `s` ends with `suf`.
A glob of the shape `*X` matches exactly the names ending with `X`. -/
def endsWithStr (s suffix : String) : Bool := suffix.data.isSuffixOf s.data

/-- Infix test on strings, used to embed the glob pattern of
`MODULES_DIR.rglob` in `_autogen_files_tree_hash`. -/
def hasInfixChars (pat : List Char) : List Char → Bool
  | [] => pat.isEmpty
  | c :: rest => pat.isPrefixOf (c :: rest) || hasInfixChars pat rest

/-! ## Contract discovery (embedding `_discover_contract_abbrs` from
`src/stageB/tests/test_stageB_gates.py`)

A contract file on disk is modelled by its name and the outcome of
`json.loads` on its bytes: `parsed = none` models unreadable bytes or a
JSON decode error (caught by the bare `except Exception: continue`);
`module_abbr = none` models a document without that key (or a falsy value,
which `str(... or "")` turns into the empty string). -/

/-- Result of parsing one contract file, restricted to the field the
discovery helper reads. -/
structure RawContract where
  module_abbr : Option String
deriving DecidableEq, Repr

/-- A file in the contracts directory: its name and its parse outcome. -/
structure ContractFile where
  name : String
  parsed : Option RawContract
deriving DecidableEq, Repr

/-- The glob `*_contract_stageA_FINAL.json` used by the discovery helper. -/
def contractFilePat (s : String) : Bool := endsWithStr s "_contract_stageA_FINAL.json"

/-- The abbreviation one file contributes:
`str(data.get("module_abbr") or "").strip().upper()`, kept only when
non-empty; a file that fails to parse contributes nothing. -/
def extractAbbr (f : ContractFile) : Option String :=
  match f.parsed with
  | none => none
  | some d =>
      let a := upperStr (trimStr (d.module_abbr.getD ""))
      if a = "" then none else some a

/-- First-seen-order de-duplication, embedding the `seen` set loop of
`_discover_contract_abbrs`. -/
def dedupFirstSeen (seen : List String) : List String → List String
  | [] => []
  | a :: rest =>
      if a ∈ seen then dedupFirstSeen seen rest
      else a :: dedupFirstSeen (a :: seen) rest

/-- Embedding of `_discover_contract_abbrs`: the input list is the
directory listing in sorted name order; files matching the contract glob
are parsed, abbreviations extracted, and the result de-duplicated
preserving first-seen order. -/
def discoverAbbrs (files : List ContractFile) : List String :=
  dedupFirstSeen [] ((files.filter (fun f => contractFilePat f.name)).filterMap extractAbbr)

/-- The raw (pre-de-duplication) abbreviation sequence of a directory
listing, in sorted file order. -/
def rawAbbrs (files : List ContractFile) : List String :=
  (files.filter (fun f => contractFilePat f.name)).filterMap extractAbbr

theorem dedupFirstSeen_mem : ∀ (l seen : List String) (a : String),
    a ∈ dedupFirstSeen seen l ↔ (a ∈ l ∧ a ∉ seen)
  | [], seen, a => by simp [dedupFirstSeen]
  | b :: rest, seen, a => by
      simp only [dedupFirstSeen]
      by_cases hb : b ∈ seen
      · rw [if_pos hb, dedupFirstSeen_mem rest seen a]
        simp only [List.mem_cons]
        constructor
        · exact fun h => ⟨Or.inr h.1, h.2⟩
        · rintro ⟨h | h, h2⟩
          · exact absurd (h ▸ hb) h2
          · exact ⟨h, h2⟩
      · rw [if_neg hb]
        simp only [List.mem_cons, dedupFirstSeen_mem rest (b :: seen) a]
        constructor
        · rintro (rfl | ⟨h1, h2⟩)
          · exact ⟨Or.inl rfl, hb⟩
          · exact ⟨Or.inr h1, fun hs => h2 (Or.inr hs)⟩
        · rintro ⟨h1, h2⟩
          by_cases hab : a = b
          · exact Or.inl hab
          · rcases h1 with h | h
            · exact absurd h hab
            · exact Or.inr ⟨h, fun hs => by
                rcases hs with h4 | h4
                · exact hab h4
                · exact h2 h4⟩

theorem dedupFirstSeen_nodup : ∀ (l seen : List String), (dedupFirstSeen seen l).Nodup
  | [], _ => List.nodup_nil
  | b :: rest, seen => by
      simp only [dedupFirstSeen]
      by_cases hb : b ∈ seen
      · rw [if_pos hb]; exact dedupFirstSeen_nodup rest seen
      · rw [if_neg hb, List.nodup_cons]
        refine ⟨fun hmem => ?_, dedupFirstSeen_nodup rest (b :: seen)⟩
        exact ((dedupFirstSeen_mem rest (b :: seen) b).mp hmem).2 (List.mem_cons_self b seen)

theorem dedupFirstSeen_indexOf : ∀ (l seen : List String) (a b : String),
    a ∈ dedupFirstSeen seen l → b ∈ dedupFirstSeen seen l →
    (List.indexOf a (dedupFirstSeen seen l) ≤ List.indexOf b (dedupFirstSeen seen l) ↔
      List.indexOf a l ≤ List.indexOf b l)
  | [], seen, a, b => by intro ha; simp [dedupFirstSeen] at ha
  | c :: rest, seen, a, b => by
      intro ha hb
      simp only [dedupFirstSeen] at ha hb ⊢
      by_cases hc : c ∈ seen
      · rw [if_pos hc] at ha hb ⊢
        have hane : a ∉ seen := ((dedupFirstSeen_mem rest seen a).mp ha).2
        have hbne : b ∉ seen := ((dedupFirstSeen_mem rest seen b).mp hb).2
        have hac : c ≠ a := fun h => hane (h ▸ hc)
        have hbc : c ≠ b := fun h => hbne (h ▸ hc)
        rw [List.indexOf_cons_ne rest hac, List.indexOf_cons_ne rest hbc,
          Nat.succ_le_succ_iff]
        exact dedupFirstSeen_indexOf rest seen a b ha hb
      · rw [if_neg hc] at ha hb ⊢
        by_cases hac : a = c
        · subst hac
          rw [List.indexOf_cons_self, List.indexOf_cons_self]
          simp
        · have ha2 : a ∈ dedupFirstSeen (c :: seen) rest := by
            rcases List.mem_cons.mp ha with h | h
            · exact absurd h hac
            · exact h
          have hca : c ≠ a := fun h => hac h.symm
          by_cases hbc : b = c
          · subst hbc
            rw [List.indexOf_cons_self, List.indexOf_cons_self,
              List.indexOf_cons_ne _ hca, List.indexOf_cons_ne rest hca]
            simp
          · have hb2 : b ∈ dedupFirstSeen (c :: seen) rest := by
              rcases List.mem_cons.mp hb with h | h
              · exact absurd h hbc
              · exact h
            have hcb : c ≠ b := fun h => hbc h.symm
            rw [List.indexOf_cons_ne _ hca, List.indexOf_cons_ne _ hcb,
              List.indexOf_cons_ne rest hca, List.indexOf_cons_ne rest hcb,
              Nat.succ_le_succ_iff, Nat.succ_le_succ_iff]
            exact dedupFirstSeen_indexOf rest (c :: seen) a b ha2 hb2

/-! ## Contract data model (spec section 3) -/

/-- A scalar parameter value: numeric or string. -/
inductive PValue
  | num (n : Int)
  | str (s : String)
deriving DecidableEq, Repr

/-- One declared parameter: name, contract-declared default, optional
numeric bounds, optional enumeration of admissible values. -/
structure ParamSpec where
  name : String
  defaultValue : PValue
  lo : Option Int
  hi : Option Int
  choices : Option (List PValue)
deriving DecidableEq, Repr

/-- The `_schema` header block of a contract. -/
structure SchemaBlock where
  name : String
  stage : String
  maturity_stage : String
deriving DecidableEq, Repr

/-- One `error_codes` entry. -/
structure ErrorCodeDef where
  code : String
  message : String
  severity : String
deriving DecidableEq, Repr

/-- One `constraints` entry. -/
structure ConstraintDef where
  rule : String
  error_code : String
deriving DecidableEq, Repr

/-- One `validation.rules` entry. -/
structure ValidationRule where
  condition : String
  error_code : String
deriving DecidableEq, Repr

/-- A parsed contract document, restricted to the fields the validated
claims read. -/
structure ContractDoc where
  schemaBlock : SchemaBlock
  module_id : String
  module_abbr : String
  version : String
  description : String
  parameters : List ParamSpec
  constraints : List ConstraintDef
  validation_rules : List ValidationRule
  error_codes : List ErrorCodeDef
deriving DecidableEq, Repr

/-! ## Semantic linter (spec section 4.2; the implementation `stageA/lint`
is not among the sources, so it is modelled from the specification) -/

/-- One semantic/structural violation reported by the linter. -/
structure LintError where
  code : String
  message : String
deriving DecidableEq, Repr

/-- The linter verdict for one contract. -/
structure ValidationResult where
  passed : Bool
  score : Nat
  errors : List LintError
deriving DecidableEq, Repr

/-- The three admissible `_schema.maturity_stage` values (literals taken
from `test_schema_block_valid` in `src/stageA/tests/test_stageA_contracts.py`). -/
def maturityStages : List String := ["pilot", "draft", "stable"]

/-- Modelled from the spec: the `_schema` literal-field check of the
linter (missing `stageA/lint`); one hard error per wrong literal, in
schema traversal order. -/
def schemaErrs (c : ContractDoc) : List LintError :=
  (if c.schemaBlock.name = "A-PRACTICAL.contract" then []
   else [⟨"SCHEMA_NAME", "_schema.name is not the fixed literal"⟩]) ++
  (if c.schemaBlock.stage = "A.contract_only" then []
   else [⟨"SCHEMA_STAGE", "_schema.stage is not the fixed literal"⟩]) ++
  (if c.schemaBlock.maturity_stage ∈ maturityStages then []
   else [⟨"SCHEMA_MATURITY", "_schema.maturity_stage not in the enumeration"⟩])

/-- The codes a contract declares, in document order. -/
def declaredCodes (c : ContractDoc) : List String :=
  c.error_codes.map (fun e => e.code)

/-- The duplicate occurrences of a code sequence, in first-seen order
(a code is reported each time it repeats an earlier occurrence). -/
def dupCodesAux (seen : List String) : List String → List String
  | [] => []
  | a :: rest =>
      if a ∈ seen then a :: dupCodesAux seen rest
      else dupCodesAux (a :: seen) rest

/-- Modelled from the spec: the `error_codes` uniqueness check of the
linter (missing `stageA/lint`); a hard error per duplicate. -/
def dupErrs (c : ContractDoc) : List LintError :=
  (dupCodesAux [] (declaredCodes c)).map (fun cd => ⟨"DUPLICATE_CODE", cd⟩)

/-- Modelled from the spec: the dangling-reference check over
`constraints`, in document order (missing `stageA/lint`). -/
def danglingConstraintErrs (c : ContractDoc) : List LintError :=
  c.constraints.filterMap fun k =>
    if k.error_code ∈ declaredCodes c then none
    else some ⟨"DANGLING_CONSTRAINT_CODE", k.error_code⟩

/-- Modelled from the spec: the dangling-reference check over
`validation.rules`, in document order (missing `stageA/lint`). -/
def danglingRuleErrs (c : ContractDoc) : List LintError :=
  c.validation_rules.filterMap fun r =>
    if r.error_code ∈ declaredCodes c then none
    else some ⟨"DANGLING_RULE_CODE", r.error_code⟩

/-- Modelled from the spec: the glossary-coverage check of the linter
(missing `stageA/lint`); the glossary is the list of its terms. -/
def glossErrs (glossary : List String) (c : ContractDoc) : List LintError :=
  if c.module_abbr ∈ glossary then [] else [⟨"GLOSSARY_MISSING", c.module_abbr⟩]

/-- Modelled from the spec: `validate_contract` of the semantic linter
(missing `stageA/lint`).  Errors are collected exhaustively in the
deterministic order the spec fixes (schema, duplicates, dangling
references with constraints before rules, glossary); every currently
defined check is hard, each error carries a positive weighted deduction
from the starting score of 100 (truncated at 0); `passed` is the
emptiness of the error list, computed independently of the score. -/
def validate_contract (glossary : List String) (c : ContractDoc) : ValidationResult :=
  let es := schemaErrs c ++ dupErrs c ++
    (danglingConstraintErrs c ++ danglingRuleErrs c) ++ glossErrs glossary c
  let deduction := 25 * (schemaErrs c).length + 10 * (dupErrs c).length +
    10 * (danglingConstraintErrs c ++ danglingRuleErrs c).length +
    10 * (glossErrs glossary c).length
  { passed := es.isEmpty, score := 100 - deduction, errors := es }

/-! ## Catalog synchronizer (spec section 4.3; `check_catalog` is not among
the sources, so it is modelled from the specification) -/

/-- One catalog entry. -/
structure CatalogEntry where
  module_id : String
  module_abbr : String
  version : String
deriving DecidableEq, Repr

/-- One drift violation reported for a catalog entry. -/
structure CatalogViolation where
  entry_module_id : String
  kind : String
deriving DecidableEq, Repr

/-- Lookup of the loaded contract for a module id. -/
def findContract (contracts : List ContractDoc) (mid : String) : Option ContractDoc :=
  contracts.find? (fun c => c.module_id == mid)

/-- Modelled from the spec: the violations one catalog entry produces
(missing catalog-sync implementation): "contract not found" when the
referenced module id has no loaded contract, otherwise "version mismatch"
and "abbreviation mismatch" under exact string comparison. -/
def entryViolations (contracts : List ContractDoc) (e : CatalogEntry) : List CatalogViolation :=
  match findContract contracts e.module_id with
  | none => [⟨e.module_id, "contract not found"⟩]
  | some c =>
      (if c.version = e.version then [] else [⟨e.module_id, "version mismatch"⟩]) ++
      (if c.module_abbr = e.module_abbr then [] else [⟨e.module_id, "abbreviation mismatch"⟩])

/-- Modelled from the spec: `check_catalog(catalog, contracts)`: violations
of every catalog entry, in catalog order; contracts without an entry are
never inspected. -/
def check_catalog (catalog : List CatalogEntry) (contracts : List ContractDoc) : List CatalogViolation :=
  catalog.flatMap (entryViolations contracts)

/-! ## Batch driver (spec section 6; `run_stageA.py` is in the sources,
the batch validator `stageA/tools/batch_validator.py` is not) -/

/-- Embedding of `run_command` from `src/run_stageA.py`: success exactly
when the subprocess completed with return code 0; `none` models the
exception branch, which returns failure. -/
def run_command_ok (returncode : Option Nat) : Bool :=
  match returncode with
  | some 0 => true
  | _ => false

/-- Embedding of the exit logic of `main` from `src/run_stageA.py`: the
result list holds the validation step and, unless quick mode, the test
step; exit 0 when all results succeeded, 1 otherwise. -/
def stageA_main_exit (quick : Bool) (validateCode : Option Nat) (testCode : Option Nat) : Nat :=
  let results := [run_command_ok validateCode] ++ (if quick then [] else [run_command_ok testCode])
  if results.all (fun b => b) then 0 else 1

/-- Modelled from the spec: the exit status of the batch validation driver
(missing `stageA/tools/batch_validator.py`): exit code 0 iff every
discovered contract passes validation. -/
def batch_validator_exit (glossary : List String) (cs : List ContractDoc) : Nat :=
  if (cs.map (validate_contract glossary)).all (fun r => r.passed) then 0 else 1

/-! ## Generated artifacts (spec sections 4.4 and 6; the generator
`stageB/generator/generate_module.py` is not among the sources — only its
package declaration and its gate tests are — so artifact rendering is
modelled from the specification) -/

/-- One line of a generated source artifact: a comment line, an exported
constant assignment, or scaffold code. -/
inductive SrcLine
  | comment (text : String)
  | assign (name : String) (value : String)
  | code (text : String)
deriving DecidableEq, Repr

/-- Whether a line is a comment line. -/
def isCommentLine : SrcLine → Bool
  | .comment _ => true
  | _ => false

/-- The schema version the generator stamps into artifacts (versioned
schema filename used throughout the sources). -/
def SCHEMA_VERSION : String := "contract_schema_stageA_v4"

/-- Serialization of one parameter value. -/
def serializePValue : PValue → String
  | .num n => toString n
  | .str s => s

/-- Serialization of one parameter declaration. -/
def serializeParam (p : ParamSpec) : String :=
  p.name ++ "=" ++ serializePValue p.defaultValue

/-- Modelled from the spec: the canonical contract serialization the
content hash is computed over — fixed key order, no insignificant
whitespace, only semantically meaningful contract content. -/
def canonicalSerialize (c : ContractDoc) : String :=
  "module_id=" ++ c.module_id ++ ";module_abbr=" ++ c.module_abbr ++
  ";version=" ++ c.version ++ ";description=" ++ c.description ++
  ";schema=" ++ c.schemaBlock.name ++ "," ++ c.schemaBlock.stage ++ "," ++
  c.schemaBlock.maturity_stage ++
  ";parameters=" ++ String.intercalate "," (c.parameters.map serializeParam) ++
  ";error_codes=" ++ String.intercalate "," (declaredCodes c) ++
  ";constraints=" ++ String.intercalate "," (c.constraints.map (fun k => k.error_code)) ++
  ";rules=" ++ String.intercalate "," (c.validation_rules.map (fun r => r.error_code))

/-- Modelled from the spec: the content hash of a contract.  The SHA-256
hex digest is abstracted as the canonical serialization itself (an
injective, deterministic stand-in; no settled claim depends on the digest
shape, only on its determinism in the contract). -/
def contractSha (c : ContractDoc) : String := canonicalSerialize c

/-- The module directory name: the discovered abbreviation,
whitespace-stripped and upper-cased. -/
def normAbbr (c : ContractDoc) : String := upperStr (trimStr c.module_abbr)

/-- The fixed autogenerated-artifact name set (`REQUIRED_AUTOGEN_FILES`
in `src/stageB/tests/test_stageB_gates.py`). -/
def autogenNames : List String :=
  ["config_autogen.py", "io_types_autogen.py", "validators_autogen.py",
   "pipeline_autogen.py", "cli_autogen.py", "README_autogen.md"]

/-- The fixed manual file names (`MANUAL_FILES` in
`src/stageB/tests/test_stageB_gates.py`). -/
def manualNames : List String := ["pipeline.py", "__manual__.py", "__init__.py"]

/-- The five code artifacts (the README is documentation-only). -/
def codeArtifactNames : List String :=
  ["config_autogen.py", "io_types_autogen.py", "validators_autogen.py",
   "pipeline_autogen.py", "cli_autogen.py"]

/-- Modelled from the spec: the leading comment header of a code
artifact, carrying the greppable `contract_sha256:` label. -/
def headerLines (c : ContractDoc) (artifact : String) : List SrcLine :=
  [.comment ("AUTOGENERATED FILE " ++ artifact ++ " - do not edit"),
   .comment ("module_id: " ++ c.module_id),
   .comment ("module_abbr: " ++ normAbbr c),
   .comment ("contract_sha256: " ++ contractSha c)]

/-- Modelled from the spec: the exported runtime constants of a code
artifact, readable without executing generator code. -/
def constantLines (c : ContractDoc) : List SrcLine :=
  [.assign "__contract_id__" c.module_id,
   .assign "__contract_version__" c.version,
   .assign "__schema_version__" SCHEMA_VERSION,
   .assign "__contract_sha256__" (contractSha c)]

/-- Modelled from the spec: the scaffold body of a code artifact — an
extension point derived from the contract alone, no domain logic. -/
def bodyLines (c : ContractDoc) (artifact : String) : List SrcLine :=
  [.code ("scaffold " ++ artifact ++ " for module " ++ normAbbr c ++
    " with parameters " ++ String.intercalate "," (c.parameters.map (fun p => p.name)))]

/-- Modelled from the spec: the README artifact — a human-readable
summary of the contract, documentation-only. -/
def readmeLines (c : ContractDoc) : List SrcLine :=
  [.comment ("README for module " ++ normAbbr c),
   .comment ("version: " ++ c.version),
   .comment ("parameters: " ++ String.intercalate "," (c.parameters.map (fun p => p.name))),
   .comment ("error_codes: " ++ String.intercalate "," (declaredCodes c))]

/-- Modelled from the spec: the line structure of one generated artifact.
The five code artifacts carry header, runtime constants and scaffold
body; the README is documentation-only. -/
def artifactLines (c : ContractDoc) (artifact : String) : List SrcLine :=
  if artifact = "README_autogen.md" then readmeLines c
  else headerLines c artifact ++ constantLines c ++ bodyLines c artifact

/-- Rendering of one artifact line to text. -/
def renderLine : SrcLine → String
  | .comment t => "# " ++ t
  | .assign n v => n ++ " = " ++ "\"" ++ v ++ "\""
  | .code t => t

/-- The byte content of a generated artifact. -/
def artifactContent (c : ContractDoc) (artifact : String) : String :=
  String.intercalate "\n" ((artifactLines c artifact).map renderLine)

/-- Static extraction of an exported constant from artifact lines —
reading a constant without executing the artifact. -/
def constantValue (ls : List SrcLine) (n : String) : Option String :=
  ls.findSome? fun l =>
    match l with
    | .assign m v => if m = n then some v else none
    | _ => none

/-! ## Output tree and generator runs (spec sections 4.4, 8) -/

/-- A path under the modules output root: the module directory name and
the file name inside it. -/
abbrev FPath := String × String

/-- The modules output tree: a partial map from path to file content. -/
def FSTree := FPath → Option String

/-- Writing one file. -/
def writeFS (fs : FSTree) (p : FPath) (v : String) : FSTree :=
  fun q => if q = p then some v else fs q

/-- Writing a list of files in order. -/
def writeAllFS (fs : FSTree) (ws : List (FPath × String)) : FSTree :=
  ws.foldl (fun f pv => writeFS f pv.1 pv.2) fs

/-- Left-biased choice on optional contents. -/
def overOpt (a b : Option String) : Option String :=
  match a with
  | some v => some v
  | none => b

/-- The net effect of a write list at one path (later writes win). -/
def planOf (ws : List (FPath × String)) (q : FPath) : Option String :=
  match ws with
  | [] => none
  | pv :: rest => overOpt (planOf rest q) (if q = pv.1 then some pv.2 else none)

/-- Modelled from the spec: the writes the generator performs for one
contract — exactly the six autogenerated artifacts, inside the directory
named after the module abbreviation; manual files are skipped entirely,
never written. -/
def moduleWrites (c : ContractDoc) : List (FPath × String) :=
  autogenNames.map (fun n => ((normAbbr c, n), artifactContent c n))

/-- Modelled from the spec: `generate_all` — one generator run over the
discovered contracts, writing each module's artifact set into the output
tree. -/
def generate_all (cs : List ContractDoc) (fs : FSTree) : FSTree :=
  writeAllFS fs (cs.flatMap moduleWrites)

/-- Whether a file name matches the `*_autogen.*` glob of
`_autogen_files_tree_hash`. -/
def isAutogenName (s : String) : Bool := hasInfixChars "_autogen.".data s.data

/-- Embedding of `_autogen_files_tree_hash` from
`src/stageB/tests/test_stageB_gates.py`: the restriction of the output
tree to files matching the autogen glob, mapped through a content-hash
function. -/
def autogenTreeHash (hash : String → String) (fs : FSTree) : FPath → Option String :=
  fun q => if isAutogenName q.2 then (fs q).map hash else none

/-! ## Generated parameter containers (spec section 4.4 item 1; the
generated `config_autogen.py` code is not among the sources, so its
behaviour is modelled from the specification) -/

/-- Lookup in a raw mapping. -/
def lookupRaw (raw : List (String × PValue)) (k : String) : Option PValue :=
  List.lookup k raw

/-- Modelled from the spec: the declared-range check of one parameter —
numeric bounds and enumeration membership where declared. -/
def checkParam (p : ParamSpec) (v : PValue) : Bool :=
  (match p.lo, v with
   | some lo, .num n => lo ≤ n
   | some _, .str _ => false
   | none, _ => true) &&
  (match p.hi, v with
   | some hi, .num n => n ≤ hi
   | some _, .str _ => false
   | none, _ => true) &&
  (match p.choices with
   | some cs => cs.contains v
   | none => true)

/-- Modelled from the spec: `from_contract_dict(raw)` of a generated
parameter container — a total constructor over a partial mapping, unknown
keys ignored, missing keys falling back to declared defaults.  The
container instance is the field-value list in contract order. -/
def from_contract_dict (specs : List ParamSpec) (raw : List (String × PValue)) : List PValue :=
  specs.map (fun p => (lookupRaw raw p.name).getD p.defaultValue)

/-- The defaults instance: every field holds its contract-declared
default. -/
def paramDefaults (specs : List ParamSpec) : List PValue :=
  specs.map (fun p => p.defaultValue)

/-- Modelled from the spec: `validate_ranges()` — the ordered list of
human-readable violation descriptions of the declared ranges. -/
def validate_ranges (specs : List ParamSpec) (vals : List PValue) : List String :=
  (specs.zip vals).filterMap fun pv =>
    if checkParam pv.1 pv.2 then none
    else some ("parameter " ++ pv.1.name ++ " out of declared range")

/-- A raw mapping is a valid input for a parameter set when every field
value it induces (provided or defaulted) satisfies the declared range. -/
def validInput (specs : List ParamSpec) (raw : List (String × PValue)) : Prop :=
  ∀ p ∈ specs, checkParam p ((lookupRaw raw p.name).getD p.defaultValue) = true

/-! ## Sample inputs used by witnesses -/

/-- A concrete sample contract used by witnesses. -/
def sampleContract : ContractDoc where
  schemaBlock := { name := "A-PRACTICAL.contract", stage := "A.contract_only", maturity_stage := "stable" }
  module_id := "mod.sps.core"
  module_abbr := "sps"
  version := "1.0.0"
  description := "sample painting module"
  parameters := [{ name := "width", defaultValue := PValue.num 10, lo := some 1, hi := some 100, choices := none }]
  constraints := [{ rule := "width positive", error_code := "E1" }]
  validation_rules := [{ condition := "width in range", error_code := "E1" }]
  error_codes := [{ code := "E1", message := "bad width", severity := "error" }]

/-- The empty output tree. -/
def emptyFS : FSTree := fun _ => none

/-! ## Write-plan lemmas for generator runs -/

theorem overOpt_assoc (a b c : Option String) :
    overOpt a (overOpt b c) = overOpt (overOpt a b) c := by
  cases a <;> rfl

theorem overOpt_self (a b : Option String) :
    overOpt a (overOpt a b) = overOpt a b := by
  cases a <;> rfl

theorem writeAllFS_eq : ∀ (ws : List (FPath × String)) (fs : FSTree) (q : FPath),
    writeAllFS fs ws q = overOpt (planOf ws q) (fs q)
  | [], _, _ => rfl
  | pv :: rest, fs, q => by
      show writeAllFS (writeFS fs pv.1 pv.2) rest q = _
      rw [writeAllFS_eq rest (writeFS fs pv.1 pv.2) q]
      have h1 : writeFS fs pv.1 pv.2 q = overOpt (if q = pv.1 then some pv.2 else none) (fs q) := by
        by_cases h : q = pv.1
        · simp [writeFS, h, overOpt]
        · simp [writeFS, h, overOpt]
      rw [h1, overOpt_assoc]
      rfl

theorem planOf_some_mem : ∀ (ws : List (FPath × String)) (q : FPath) (v : String),
    planOf ws q = some v → ∃ pv ∈ ws, q = pv.1
  | [], q, v => by intro h; simp [planOf] at h
  | pv :: rest, q, v => by
      intro h
      simp only [planOf] at h
      cases hr : planOf rest q with
      | some w =>
          obtain ⟨pw, hmem, hq⟩ := planOf_some_mem rest q w hr
          exact ⟨pw, List.mem_cons_of_mem _ hmem, hq⟩
      | none =>
          rw [hr] at h
          by_cases hq : q = pv.1
          · exact ⟨pv, List.mem_cons_self _ _, hq⟩
          · simp [overOpt, hq] at h

theorem planOf_eq_none : ∀ (ws : List (FPath × String)) (q : FPath),
    (∀ pv ∈ ws, q ≠ pv.1) → planOf ws q = none
  | [], _, _ => rfl
  | pv :: rest, q, h => by
      simp only [planOf]
      rw [planOf_eq_none rest q (fun pw hw => h pw (List.mem_cons_of_mem _ hw)),
        if_neg (h pv (List.mem_cons_self _ _))]
      rfl

theorem mem_flatMap_moduleWrites {cs : List ContractDoc} {pv : FPath × String}
    (h : pv ∈ cs.flatMap moduleWrites) :
    ∃ c ∈ cs, pv.1.1 = normAbbr c ∧ pv.1.2 ∈ autogenNames := by
  rcases List.mem_flatMap.mp h with ⟨c, hc, hpv⟩
  rcases List.mem_map.mp hpv with ⟨n, hn, rfl⟩
  exact ⟨c, hc, rfl, hn⟩

theorem generate_all_apply (cs : List ContractDoc) (fs : FSTree) (q : FPath) :
    generate_all cs fs q = overOpt (planOf (cs.flatMap moduleWrites) q) (fs q) :=
  writeAllFS_eq _ fs q

/-- C1: for every contract set unchanged between two generator runs,
running the generator twice produces byte-identical content for every
autogenerated file: the mapping from autogenerated file path to content
hash after the first run equals the mapping after the second run, for any
content-hash function. -/
theorem generate_twice_tree_hash_eq (hash : String → String)
    (cs : List ContractDoc) (fs : FSTree) :
    autogenTreeHash hash (generate_all cs (generate_all cs fs)) =
      autogenTreeHash hash (generate_all cs fs) := by
  funext q
  have h : generate_all cs (generate_all cs fs) q = generate_all cs fs q := by
    rw [generate_all_apply cs (generate_all cs fs) q, generate_all_apply cs fs q,
      overOpt_self]
  simp [autogenTreeHash, h]

/-- C2: in every generator run, every path whose content is created or
modified lies in the fixed autogenerated-artifact name set, inside the
directory named after a discovered module abbreviation; and no existing
file is deleted. -/
theorem generator_write_scoping (cs : List ContractDoc) (fs : FSTree) (q : FPath) :
    (generate_all cs fs q ≠ fs q →
      ∃ c ∈ cs, q.1 = normAbbr c ∧ q.2 ∈ autogenNames) ∧
    (∀ v, fs q = some v → ∃ w, generate_all cs fs q = some w) := by
  constructor
  · intro hne
    cases hp : planOf (cs.flatMap moduleWrites) q with
    | none => exact absurd (by rw [generate_all_apply, hp]; rfl) hne
    | some v =>
        obtain ⟨pv, hmem, hq⟩ := planOf_some_mem _ q v hp
        obtain ⟨c, hc, h1, h2⟩ := mem_flatMap_moduleWrites hmem
        exact ⟨c, hc, by rw [hq]; exact h1, by rw [hq]; exact h2⟩
  · intro v hv
    rw [generate_all_apply]
    cases hp : planOf (cs.flatMap moduleWrites) q with
    | none => exact ⟨v, by rw [hv]; rfl⟩
    | some w => exact ⟨w, rfl⟩

/-- Witness for C2: a concrete run on the empty tree changes the
config artifact path of the sample module, and that path is in the
allow-list; a concrete pre-existing manual file is not deleted. -/
theorem generator_write_scoping_witness :
    (∃ c ∈ [sampleContract], (("SPS", "config_autogen.py") : FPath).1 = normAbbr c ∧
      (("SPS", "config_autogen.py") : FPath).2 ∈ autogenNames) ∧
    (∃ w, generate_all [sampleContract]
      (writeFS emptyFS ("SPS", "pipeline.py") "manual body") ("SPS", "pipeline.py") = some w) :=
  ⟨(generator_write_scoping [sampleContract] emptyFS ("SPS", "config_autogen.py")).1 (by decide),
   (generator_write_scoping [sampleContract]
      (writeFS emptyFS ("SPS", "pipeline.py") "manual body") ("SPS", "pipeline.py")).2
      "manual body" (by decide)⟩

/-- C3: a path carrying one of the fixed manual file names is never
touched by a generator run — its content (hence its content hash, when it
exists) is unchanged, whatever the generator would otherwise produce. -/
theorem generator_manual_preserved (cs : List ContractDoc) (fs : FSTree) (q : FPath)
    (hq : q.2 ∈ manualNames) : generate_all cs fs q = fs q := by
  have hnone : planOf (cs.flatMap moduleWrites) q = none := by
    apply planOf_eq_none
    intro pv hpv heq
    obtain ⟨c, hc, h1, h2⟩ := mem_flatMap_moduleWrites hpv
    have h3 : q.2 ∈ autogenNames := by rw [heq]; exact h2
    simp only [manualNames, List.mem_cons, List.not_mem_nil, or_false] at hq
    rcases hq with h4 | h4 | h4 <;> rw [h4] at h3 <;> exact absurd h3 (by decide)
  rw [generate_all_apply, hnone]
  rfl

/-- Witness for C3: a concrete pre-existing manual `pipeline.py` is
byte-identical after a generator run. -/
theorem generator_manual_preserved_witness :
    generate_all [sampleContract]
        (writeFS emptyFS ("SPS", "pipeline.py") "manual body") ("SPS", "pipeline.py") =
      writeFS emptyFS ("SPS", "pipeline.py") "manual body" ("SPS", "pipeline.py") :=
  generator_manual_preserved [sampleContract] _ _ (by decide)

/-- C4: for every glossary and contract, the linter verdict has
`passed` true iff the error list is empty, and — all currently defined
checks being hard pass/fail checks — `passed` true iff the score
equals 100. -/
theorem validate_contract_passed_iff (glossary : List String) (c : ContractDoc) :
    ((validate_contract glossary c).passed = true ↔
      (validate_contract glossary c).errors = []) ∧
    ((validate_contract glossary c).passed = true ↔
      (validate_contract glossary c).score = 100) := by
  have hes : (validate_contract glossary c).errors =
      schemaErrs c ++ dupErrs c ++
        (danglingConstraintErrs c ++ danglingRuleErrs c) ++ glossErrs glossary c := rfl
  have hps : (validate_contract glossary c).passed =
      (schemaErrs c ++ dupErrs c ++
        (danglingConstraintErrs c ++ danglingRuleErrs c) ++ glossErrs glossary c).isEmpty := rfl
  have hsc : (validate_contract glossary c).score =
      100 - (25 * (schemaErrs c).length + 10 * (dupErrs c).length +
        10 * (danglingConstraintErrs c ++ danglingRuleErrs c).length +
        10 * (glossErrs glossary c).length) := rfl
  rw [hes, hps, hsc, List.isEmpty_iff]
  have hlen : (schemaErrs c ++ dupErrs c ++
      (danglingConstraintErrs c ++ danglingRuleErrs c) ++ glossErrs glossary c).length =
      (schemaErrs c).length + (dupErrs c).length +
        (danglingConstraintErrs c ++ danglingRuleErrs c).length +
        (glossErrs glossary c).length := by
    simp [List.length_append]
    omega
  refine ⟨Iff.rfl, ?_, ?_⟩
  · intro h
    have h0 : (schemaErrs c ++ dupErrs c ++
        (danglingConstraintErrs c ++ danglingRuleErrs c) ++ glossErrs glossary c).length = 0 := by
      rw [h]; rfl
    omega
  · intro h
    have h0 : (schemaErrs c ++ dupErrs c ++
        (danglingConstraintErrs c ++ danglingRuleErrs c) ++ glossErrs glossary c).length = 0 := by
      omega
    exact List.length_eq_zero.mp h0

/-- C5: generator discovery returns the upper-cased abbreviations of the
contract files matching the canonical naming pattern, de-duplicated while
preserving first-seen order: the result has no duplicates, holds exactly
the abbreviations the matching files contribute, and orders them by the
position of their first occurrence in sorted file order. -/
theorem discoverAbbrs_characterization (files : List ContractFile) :
    (discoverAbbrs files).Nodup ∧
    (∀ a, a ∈ discoverAbbrs files ↔ a ∈ rawAbbrs files) ∧
    (∀ a b, a ∈ discoverAbbrs files → b ∈ discoverAbbrs files →
      (List.indexOf a (discoverAbbrs files) ≤ List.indexOf b (discoverAbbrs files) ↔
        List.indexOf a (rawAbbrs files) ≤ List.indexOf b (rawAbbrs files))) := by
  have hdf : discoverAbbrs files = dedupFirstSeen [] (rawAbbrs files) := rfl
  refine ⟨by rw [hdf]; exact dedupFirstSeen_nodup _ _, fun a => ?_, fun a b ha hb => ?_⟩
  · rw [hdf, dedupFirstSeen_mem]
    simp
  · rw [hdf] at ha hb ⊢
    exact dedupFirstSeen_indexOf _ [] a b ha hb

/-- A concrete contracts-directory listing used by witnesses: two
well-formed contract files for distinct modules, a duplicate contract
file for an existing module (unnormalised abbreviation), a file that does
not parse, and a file not matching the naming pattern. -/
def sampleFiles : List ContractFile :=
  [⟨"alt_contract_stageA_FINAL.json", some ⟨some "alt"⟩⟩,
   ⟨"bad_contract_stageA_FINAL.json", none⟩,
   ⟨"notes.txt", some ⟨some "zzz"⟩⟩,
   ⟨"sps2_contract_stageA_FINAL.json", some ⟨some " sps "⟩⟩,
   ⟨"sps_contract_stageA_FINAL.json", some ⟨some "sps"⟩⟩]

/-- Witness for C5: the characterization instantiated on the sample
listing, whose raw abbreviation sequence contains a duplicate. -/
theorem discoverAbbrs_characterization_witness :
    (discoverAbbrs sampleFiles).Nodup ∧
    ("SPS" ∈ discoverAbbrs sampleFiles ↔ "SPS" ∈ rawAbbrs sampleFiles) ∧
    (List.indexOf "ALT" (discoverAbbrs sampleFiles) ≤ List.indexOf "SPS" (discoverAbbrs sampleFiles) ↔
      List.indexOf "ALT" (rawAbbrs sampleFiles) ≤ List.indexOf "SPS" (rawAbbrs sampleFiles)) :=
  ⟨(discoverAbbrs_characterization sampleFiles).1,
   (discoverAbbrs_characterization sampleFiles).2.1 "SPS",
   (discoverAbbrs_characterization sampleFiles).2.2 "ALT" "SPS" (by decide) (by decide)⟩

/-- C6: every one of the five code artifacts embeds, in its leading
comment header, a line carrying the `contract_sha256:` label followed by
the contract hash, and exposes the four runtime constants with the
contract's values, readable by static extraction from the lines without
executing generator code. -/
theorem artifact_traceability (c : ContractDoc) (artifact : String)
    (h : artifact ∈ codeArtifactNames) :
    SrcLine.comment ("contract_sha256: " ++ contractSha c) ∈
        (artifactLines c artifact).takeWhile isCommentLine ∧
    constantValue (artifactLines c artifact) "__contract_id__" = some c.module_id ∧
    constantValue (artifactLines c artifact) "__contract_version__" = some c.version ∧
    constantValue (artifactLines c artifact) "__schema_version__" = some SCHEMA_VERSION ∧
    constantValue (artifactLines c artifact) "__contract_sha256__" = some (contractSha c) := by
  simp only [codeArtifactNames, List.mem_cons, List.not_mem_nil, or_false] at h
  rcases h with rfl | rfl | rfl | rfl | rfl <;>
    · rw [artifactLines, if_neg (by decide)]
      refine ⟨?_, ?_, ?_, ?_, ?_⟩ <;>
        simp [headerLines, constantLines, bodyLines, isCommentLine, constantValue,
          List.takeWhile, List.findSome?]

/-- Witness for C6: the traceability markers of the sample module's
config artifact. -/
theorem artifact_traceability_witness :
    SrcLine.comment ("contract_sha256: " ++ contractSha sampleContract) ∈
        (artifactLines sampleContract "config_autogen.py").takeWhile isCommentLine ∧
    constantValue (artifactLines sampleContract "config_autogen.py") "__contract_id__" =
      some sampleContract.module_id ∧
    constantValue (artifactLines sampleContract "config_autogen.py") "__contract_version__" =
      some sampleContract.version ∧
    constantValue (artifactLines sampleContract "config_autogen.py") "__schema_version__" =
      some SCHEMA_VERSION ∧
    constantValue (artifactLines sampleContract "config_autogen.py") "__contract_sha256__" =
      some (contractSha sampleContract) :=
  artifact_traceability sampleContract "config_autogen.py" (by decide)

theorem entryViolations_id (contracts : List ContractDoc) (e : CatalogEntry) :
    ∀ v ∈ entryViolations contracts e, v.entry_module_id = e.module_id := by
  intro v hv
  rw [entryViolations] at hv
  cases hfc : findContract contracts e.module_id with
  | none =>
      rw [hfc] at hv
      simp at hv
      rw [hv]
  | some c =>
      rw [hfc] at hv
      by_cases hv1 : c.version = e.version <;> by_cases hv2 : c.module_abbr = e.module_abbr <;>
        simp [hv1, hv2] at hv <;>
        first
          | rw [hv]
          | rcases hv with hv | hv <;> rw [hv]

theorem check_catalog_nil_iff (catalog : List CatalogEntry) (contracts : List ContractDoc) :
    check_catalog catalog contracts = [] ↔ ∀ e ∈ catalog, entryViolations contracts e = [] := by
  induction catalog with
  | nil => simp [check_catalog]
  | cons e rest ih =>
      rw [check_catalog, List.flatMap_cons, List.append_eq_nil]
      rw [check_catalog] at ih
      rw [ih]
      simp

/-- C7: a catalog entry produces no violation exactly when its module id
resolves to a loaded contract whose version and abbreviation match the
entry under exact string equality; the whole check is clean exactly when
every entry is clean; and every reported violation carries the module id
of some catalog entry, so a contract without a catalog entry is never a
violation. -/
theorem check_catalog_spec (catalog : List CatalogEntry) (contracts : List ContractDoc) :
    (∀ e, entryViolations contracts e = [] ↔
      ∃ c, findContract contracts e.module_id = some c ∧
        c.version = e.version ∧ c.module_abbr = e.module_abbr) ∧
    (check_catalog catalog contracts = [] ↔ ∀ e ∈ catalog, entryViolations contracts e = []) ∧
    (∀ v ∈ check_catalog catalog contracts, ∃ e ∈ catalog, v.entry_module_id = e.module_id) := by
  refine ⟨fun e => ?_, check_catalog_nil_iff catalog contracts, fun v hv => ?_⟩
  · rw [entryViolations]
    cases hfc : findContract contracts e.module_id with
    | none => simp
    | some c =>
        by_cases hv1 : c.version = e.version <;> by_cases hv2 : c.module_abbr = e.module_abbr <;>
          simp [hv1, hv2]
  · rcases List.mem_flatMap.mp hv with ⟨e, he, hve⟩
    exact ⟨e, he, entryViolations_id contracts e v hve⟩

/-- A catalog entry that drifts from the sample contract in its version. -/
def driftedEntry : CatalogEntry :=
  { module_id := "mod.sps.core", module_abbr := "sps", version := "2.0.0" }

/-- Witness for C7: on a drifted concrete entry the per-entry
characterization holds, and the reported violation carries the id of that
catalog entry. -/
theorem check_catalog_spec_witness :
    (entryViolations [sampleContract] driftedEntry = [] ↔
      ∃ c, findContract [sampleContract] driftedEntry.module_id = some c ∧
        c.version = driftedEntry.version ∧ c.module_abbr = driftedEntry.module_abbr) ∧
    (∃ e ∈ [driftedEntry],
      (⟨"mod.sps.core", "version mismatch"⟩ : CatalogViolation).entry_module_id = e.module_id) :=
  ⟨(check_catalog_spec [driftedEntry] [sampleContract]).1 driftedEntry,
   (check_catalog_spec [driftedEntry] [sampleContract]).2.2 _ (by decide)⟩

theorem validate_ranges_map_nil : ∀ (specs : List ParamSpec) (f : ParamSpec → PValue),
    (∀ p ∈ specs, checkParam p (f p) = true) →
    validate_ranges specs (specs.map f) = []
  | [], _, _ => rfl
  | p :: rest, f, h => by
      have hp := h p (List.mem_cons_self _ _)
      rw [validate_ranges, List.map_cons, List.zip_cons_cons, List.filterMap_cons]
      simp only [hp, if_true]
      exact validate_ranges_map_nil rest f (fun q hq => h q (List.mem_cons_of_mem _ hq))

/-- C8: for every generated parameter container, `from_contract_dict`
applied to the empty mapping succeeds and yields the instance holding
every contract-declared default; and for every valid input mapping,
`validate_ranges` of the constructed instance is the empty list. -/
theorem from_contract_dict_spec (specs : List ParamSpec) (raw : List (String × PValue)) :
    from_contract_dict specs [] = paramDefaults specs ∧
    (validInput specs raw → validate_ranges specs (from_contract_dict specs raw) = []) := by
  constructor
  · simp [from_contract_dict, paramDefaults, lookupRaw, List.lookup]
  · intro hv
    exact validate_ranges_map_nil specs _ hv

/-- A concrete raw mapping with one in-range known key and one unknown
key. -/
def sampleRaw : List (String × PValue) := [("width", PValue.num 42), ("unknown", PValue.str "x")]

/-- Witness for C8: the sample contract's parameter set built from the
empty mapping yields the defaults, and built from a concrete valid
mapping validates with no range violations. -/
theorem from_contract_dict_spec_witness :
    from_contract_dict sampleContract.parameters [] = paramDefaults sampleContract.parameters ∧
    validate_ranges sampleContract.parameters
      (from_contract_dict sampleContract.parameters sampleRaw) = [] :=
  ⟨(from_contract_dict_spec sampleContract.parameters sampleRaw).1,
   (from_contract_dict_spec sampleContract.parameters sampleRaw).2
     (by unfold validInput; decide)⟩

/-- C9: the batch validation driver exits with code 0 iff every validated
contract passes; composed through the one-click driver's quick mode, the
process exit is 0 iff every contract passed. -/
theorem batch_validator_exit_spec (glossary : List String) (cs : List ContractDoc)
    (testCode : Option Nat) :
    (batch_validator_exit glossary cs = 0 ↔
      ∀ c ∈ cs, (validate_contract glossary c).passed = true) ∧
    (stageA_main_exit true (some (batch_validator_exit glossary cs)) testCode = 0 ↔
      ∀ c ∈ cs, (validate_contract glossary c).passed = true) := by
  have hall : ((cs.map (validate_contract glossary)).all (fun r => r.passed) = true) ↔
      ∀ c ∈ cs, (validate_contract glossary c).passed = true := by
    rw [List.all_eq_true]
    constructor
    · intro h c hc
      exact h _ (List.mem_map_of_mem _ hc)
    · intro h r hr
      rcases List.mem_map.mp hr with ⟨c, hc, rfl⟩
      exact h c hc
  have h1 : batch_validator_exit glossary cs = 0 ↔
      ∀ c ∈ cs, (validate_contract glossary c).passed = true := by
    rw [batch_validator_exit]
    by_cases h : (cs.map (validate_contract glossary)).all (fun r => r.passed) = true
    · rw [if_pos h]
      exact iff_of_true rfl (hall.mp h)
    · rw [if_neg h]
      constructor
      · intro h0
        exact absurd h0 (by decide)
      · intro hc
        exact absurd (hall.mpr hc) h
  have h2 : ∀ e : Nat, stageA_main_exit true (some e) testCode = 0 ↔ e = 0 := by
    intro e
    by_cases he : e = 0
    · subst he
      simp [stageA_main_exit, run_command_ok]
    · simp [stageA_main_exit, run_command_ok, he]
  exact ⟨h1, (h2 _).trans h1⟩

/-- Witness for C9: on the sample contract and a glossary containing its
abbreviation, both exit-code equivalences hold concretely. -/
theorem batch_validator_exit_spec_witness :
    (batch_validator_exit ["sps"] [sampleContract] = 0 ↔
      ∀ c ∈ [sampleContract], (validate_contract ["sps"] c).passed = true) ∧
    (stageA_main_exit true (some (batch_validator_exit ["sps"] [sampleContract])) none = 0 ↔
      ∀ c ∈ [sampleContract], (validate_contract ["sps"] c).passed = true) :=
  batch_validator_exit_spec ["sps"] [sampleContract] none

/-- C10: discovery is silently tolerant of malformed inputs — a file
whose bytes do not parse, or whose parsed document lacks a non-empty
`module_abbr` after stripping, contributes nothing: discovery over a
listing containing such a file equals discovery over the same listing
without it. -/
theorem discoverAbbrs_malformed_ignored (l1 l2 : List ContractFile) (f : ContractFile)
    (h : f.parsed = none ∨
      ∃ d, f.parsed = some d ∧ trimStr (d.module_abbr.getD "") = "") :
    discoverAbbrs (l1 ++ f :: l2) = discoverAbbrs (l1 ++ l2) := by
  have hup : upperStr "" = "" := by decide
  have hx : extractAbbr f = none := by
    rcases h with h | ⟨d, hd, ht⟩
    · simp [extractAbbr, h]
    · simp [extractAbbr, hd, ht, hup]
  simp only [discoverAbbrs]
  congr 1
  rw [List.filter_append, List.filter_append, List.filter_cons]
  by_cases hp : contractFilePat f.name
  · simp [hp, List.filterMap_append, List.filterMap_cons, hx]
  · simp [hp, List.filterMap_append]

/-- A contract file whose bytes fail to parse. -/
def malformedFile : ContractFile := ⟨"ghost_contract_stageA_FINAL.json", none⟩

/-- Witness for C10: inserting a concrete unparseable contract file into
the sample listing leaves discovery unchanged. -/
theorem discoverAbbrs_malformed_ignored_witness :
    discoverAbbrs ([] ++ malformedFile :: sampleFiles) = discoverAbbrs ([] ++ sampleFiles) :=
  discoverAbbrs_malformed_ignored [] sampleFiles malformedFile (Or.inl rfl)
